import Mathlib

/-!
# Verification of the ai-sensors core against its specification

Shallow embedding of the three core components of the repository:

* `Buffer` — the bounded circular line store (`buffer/ringbuffer.go`,
  given in the sources as `src/unnamed/part_004`): `RingBuffer`, `New`,
  `Write`, `addLine`, `Lines`, `LastN`, `getLines`.
* `Runner` — the single-process lifecycle supervisor
  (`src/runner/runner.go`): `Runner`, `New`, `Start`, `Stop`, `doStop`,
  `State`, `Wait`.
* `Manager` — the orchestration registry (`src/manager/manager.go`):
  `Manager`, `Start`, `Stop`, `Output`, `OutputLastN`.

Go strings and byte slices are embedded as `List Char`; Go `int` fields
that are provably non-negative in every reachable state (`head`, `count`,
`capacity` of the ring buffer) are embedded as `Nat`, while values that
flow in from callers and may be negative (the `n` of `LastN`/`getLines`,
the capacity passed to `New`) stay `Int`.  Go's `%` on `int` is
truncated division remainder, embedded as `Int.tmod` where an operand
could in principle be negative.  Goroutine interleavings that are
relevant to a claim are embedded as explicit environment records
(`StartEnv`) describing which concurrent events occurred during a
blocking `Start`, and as micro-operation traces for state observations.
-/

namespace Buffer

/-- Go `strings.Split(data, "\n")`: splits around each line feed,
keeping empty fragments, always returning at least one part. -/
def splitNL : List Char → List (List Char)
  | [] => [[]]
  | c :: rest =>
    if c = '\n' then [] :: splitNL rest
    else
      match splitNL rest with
      | h :: t => (c :: h) :: t
      | [] => [[c]]

/-- Go `strings.TrimSuffix(s, "\r")`: drops one trailing carriage
return if present. -/
def trimCR (l : List Char) : List Char :=
  if l.getLast? = some '\r' then l.dropLast else l

/-- The `RingBuffer` struct: a fixed storage array of `capacity` line
slots, a `head` write cursor, a saturating `count`, and the `pending`
unterminated fragment.  The `mu` mutex has no sequential content. -/
structure RingBuffer where
  lines : List (List Char)
  capacity : Nat
  head : Nat
  count : Nat
  pending : List Char
  deriving DecidableEq

/-- Error value `ErrInvalidCapacity` of the buffer package. -/
inductive BufErr
  | invalidCapacity
  deriving DecidableEq

/-- A fresh buffer as built by `New` for a positive capacity:
`make([]string, capacity)` is `capacity` empty slots. -/
def fresh (c : Nat) : RingBuffer :=
  { lines := List.replicate c [], capacity := c, head := 0, count := 0, pending := [] }

/-- `buffer.New(capacity)`: rejects `capacity <= 0`. -/
def New (capacity : Int) : Except BufErr RingBuffer :=
  if capacity ≤ 0 then .error .invalidCapacity
  else .ok (fresh capacity.toNat)

/-- `(rb *RingBuffer) addLine(line)`: store at `head`, advance `head`
mod capacity, increment `count` until it saturates. -/
def addLine (rb : RingBuffer) (line : List Char) : RingBuffer :=
  { rb with
    lines := rb.lines.set rb.head line
    head := (rb.head + 1) % rb.capacity
    count := if rb.count < rb.capacity then rb.count + 1 else rb.count }

/-- `(rb *RingBuffer) Write(p)`: empty input is a no-op; otherwise
prepend `pending`, split on line feeds, store each complete part with
a trailing carriage return trimmed, and keep the unterminated tail as
the new `pending`.  The Go return value is always `(len(p), nil)` and
is omitted. -/
def Write (rb : RingBuffer) (p : List Char) : RingBuffer :=
  if p = [] then rb
  else
    let data := rb.pending ++ p
    let parts := splitNL data
    let rb₁ := parts.dropLast.foldl (fun b part => addLine b (trimCR part))
      { rb with pending := [] }
    let lastPart := parts.getLastD []
    if lastPart = [] then rb₁ else { rb₁ with pending := lastPart }

/-- `(rb *RingBuffer) getLines(n)`: clamp `n` to the number of available
entries (stored lines plus a non-empty pending fragment), read the
stored part of the request from the circular array starting at
`(head - fromBuffer + capacity) % capacity`, and append the pending
fragment last. -/
def getLines (rb : RingBuffer) (n : Int) : List (List Char) :=
  let hasPending := rb.pending ≠ []
  let available : Int := (rb.count : Int) + (if hasPending then 1 else 0)
  let n := if n > available then available else n
  if n ≤ 0 then []
  else
    let fromBuffer : Int := if hasPending then n - 1 else n
    let store :=
      if fromBuffer > 0 then
        let start : Int := ((rb.head : Int) - fromBuffer + (rb.capacity : Int)).tmod
          (rb.capacity : Int)
        (List.range fromBuffer.toNat).map fun (i : Nat) =>
          rb.lines.getD ((start + (i : Int)).tmod (rb.capacity : Int)).toNat []
      else []
    store ++ if hasPending then [rb.pending] else []

/-- `(rb *RingBuffer) Lines()`. -/
def Lines (rb : RingBuffer) : List (List Char) :=
  getLines rb ((rb.capacity : Int) + 1)

/-- `(rb *RingBuffer) LastN(n)`. -/
def LastN (rb : RingBuffer) (n : Int) : List (List Char) :=
  if n ≤ 0 then [] else getLines rb n

/-- Well-formedness of a buffer state; established by `New` and
preserved by every operation. -/
def WF (rb : RingBuffer) : Prop :=
  rb.lines.length = rb.capacity ∧ rb.head < rb.capacity ∧
    rb.count ≤ rb.capacity ∧ 0 < rb.capacity

/-- The storage array read in chronological slot order starting at the
write cursor: slot `head` is the oldest slot, slot `head - 1` the most
recently written one. -/
def readAll (rb : RingBuffer) : List (List Char) :=
  (List.range rb.capacity).map fun i => rb.lines.getD ((rb.head + i) % rb.capacity) []

/-- The visible snapshot: the `count` stored lines oldest-to-newest,
then the pending fragment if non-empty. -/
def visible (rb : RingBuffer) : List (List Char) :=
  (readAll rb).drop (rb.capacity - rb.count) ++
    (if rb.pending = [] then [] else [rb.pending])

/-- Number of available entries: stored lines plus the pending
fragment when non-empty. -/
def availN (rb : RingBuffer) : Nat :=
  rb.count + (if rb.pending = [] then 0 else 1)

end Buffer

namespace Runner

/-- The `State` string type of the runner package, with its three
values `StateInitial`, `StateRunning`, `StateStopped`. -/
inductive State
  | initial
  | running
  | stopped
  deriving DecidableEq

/-- Spawn failures of `cmd.Start()`: `exec.ErrNotFound`, permission
errors, and any other start error — kept distinct as the spec requires. -/
inductive SpawnErr
  | notFound
  | permission
  | other
  deriving DecidableEq

/-- Non-nil results of `cmd.Wait()`: an `*exec.ExitError` carrying the
exit code (or the signal indication as a negative code), or an I/O
error. -/
inductive WaitErr
  | exit (code : Int)
  | other
  deriving DecidableEq

/-- The `error` values that can flow out of the runner API. -/
inductive GoErr
  | canceled
  | waitE (e : WaitErr)
  | spawnE (e : SpawnErr)
  | emptyCommand
  | nilOutput
  | nilContext
  | alreadyStarted
  deriving DecidableEq

/-- The runner `Config`: the output writer is embedded only as its
nil-ness, the command and arguments as inert strings. -/
structure Config where
  command : String
  args : List String
  outputSet : Bool
  stopTimeout : Nat
  deriving DecidableEq

def defaultStopTimeout : Nat := 5000

/-- Environment of one blocking `Start(ctx)` call: whether the supplied
context is nil, whether `cmd.Start()` fails and how, the result of
`cmd.Wait()` once the process exits, whether `doStop` ran (from a
concurrent `Stop` or from the context-watcher goroutine) before `Start`
re-acquired the lock, and whether `ctx.Err() == context.Canceled` at
the final check. -/
structure StartEnv where
  ctxNil : Bool
  spawnErr : Option SpawnErr
  waitResult : Option WaitErr
  stopDuring : Bool
  ctxCanceled : Bool
  deriving DecidableEq

/-- The `Runner` struct.  `cmdSet` is `r.cmd != nil`, `procStarted` is
`r.cmd.Process != nil`, `waitDoneClosed` is `close(r.waitDone)` having
happened, `onceUsed` is the consumed state of the `stopOnce` one-shot
gate, `sigCount` counts delivered termination-signal sequences, and
`pendingRun` carries the environment of an in-flight blocking `Start`
between its spawn phase and its completion phase. -/
structure Runner where
  config : Config
  state : State
  cmdSet : Bool
  procStarted : Bool
  stopped : Bool
  onceUsed : Bool
  waitDoneClosed : Bool
  waitErr : Option WaitErr
  pendingRun : Option StartEnv
  sigCount : Nat
  deriving DecidableEq

/-- `runner.New(cfg)`: validates a non-empty command and non-nil output
writer, applies the default stop timeout, touches no OS state. -/
def New (cfg : Config) : Except GoErr Runner :=
  if cfg.command = "" then .error .emptyCommand
  else if cfg.outputSet = false then .error .nilOutput
  else
    let cfg := if cfg.stopTimeout = 0 then
      { cfg with stopTimeout := defaultStopTimeout } else cfg
    .ok { config := cfg, state := .initial, cmdSet := false, procStarted := false,
          stopped := false, onceUsed := false, waitDoneClosed := false,
          waitErr := none, pendingRun := none, sigCount := 0 }

/-- First half of `Start(ctx)` up to and including `cmd.Start()`: the
nil-context check, the already-started check under the lock, command
construction, and the spawn attempt.  On success the runner is
`running` with the environment parked for the completion phase. -/
def spawnPhase (r : Runner) (env : StartEnv) : Runner × Option GoErr :=
  if env.ctxNil then (r, some .nilContext)
  else if r.state ≠ .initial then (r, some .alreadyStarted)
  else
    let r := { r with cmdSet := true }
    match env.spawnErr with
    | some e => (r, some (.spawnE e))
    | none => ({ r with
        state := .running
        procStarted := true
        pendingRun := some env }, none)

/-- Second half of `Start(ctx)` after `<-processDone`: record the raw
`cmd.Wait()` result in `waitErr`, transition to `stopped`, close
`waitDone`, and return `context.Canceled` when the run was deliberately
terminated (`wasStopped` or a cancelled context), otherwise the raw
wait result. -/
def exitPhase (r : Runner) : Runner × Option GoErr :=
  match r.pendingRun with
  | none => (r, none)
  | some env =>
    let wasStopped := r.stopped || env.stopDuring
    let r' := { r with
      state := .stopped
      stopped := wasStopped
      onceUsed := r.onceUsed || env.stopDuring
      sigCount := r.sigCount + (if env.stopDuring && !r.onceUsed then 1 else 0)
      waitErr := env.waitResult
      waitDoneClosed := true
      pendingRun := none }
    (r', if wasStopped || env.ctxCanceled then some .canceled
      else env.waitResult.map .waitE)

/-- The full blocking `Start(ctx)` call: spawn phase, then — if the
process was launched — the completion phase. -/
def Start (r : Runner) (env : StartEnv) : Runner × Option GoErr :=
  match spawnPhase r env with
  | (r', some e) => (r', some e)
  | (r', none) => exitPhase r'

/-- `doStop`: the one-shot termination sequence.  Marks `stopped`,
and delivers the SIGTERM/SIGKILL escalation to the process group when
a process handle exists. -/
def doStop (r : Runner) : Runner :=
  if r.onceUsed then r
  else
    let r := { r with onceUsed := true, stopped := true }
    if r.cmdSet && r.procStarted then { r with sigCount := r.sigCount + 1 } else r

/-- `Stop()`: a no-op returning nil when the state is `initial` or
`stopped`; otherwise runs `doStop` (and then blocks until `waitDone`,
which in a trace is the separate completion event) and returns nil. -/
def Stop (r : Runner) : Runner × Option GoErr :=
  if r.state = .initial ∨ r.state = .stopped then (r, none)
  else (doStop r, none)

/-- `Wait()`: `none` when `waitDone` is never closed (the call blocks
forever); otherwise the stored outcome, as the `error` the caller
receives. -/
def Wait (r : Runner) : Option (Option GoErr) :=
  if r.waitDoneClosed then some (r.waitErr.map .waitE) else none

/-- Observable micro-operations of a runner execution: a `Start` call
up to its spawn phase, the completion of an in-flight run, and a
`Stop` call. -/
inductive Op
  | opStart (env : StartEnv)
  | opExit
  | opStop

def applyOp (r : Runner) : Op → Runner
  | .opStart env => (spawnPhase r env).1
  | .opExit => (exitPhase r).1
  | .opStop => (Stop r).1

/-- The sequence of states observable via `State()` along a run:
the current state, then the states after each micro-operation. -/
def traceFrom (r : Runner) : List Op → List State
  | [] => [r.state]
  | op :: ops => r.state :: traceFrom (applyOp r op) ops

def chainNext : State → State
  | .initial => .running
  | .running => .stopped
  | .stopped => .stopped

/-- The maximal remaining lifecycle path from a given state. -/
def segFrom : State → List State
  | .initial => [.initial, .running, .stopped]
  | .running => [.running, .stopped]
  | .stopped => [.stopped]

/-- A run is in flight only while the runner is `running`. -/
def Inv (r : Runner) : Prop :=
  r.pendingRun = none ∨ r.state = .running

/-- One observable step either keeps the state or advances it one edge
along `initial → running → stopped`. -/
def stepOK (a b : State) : Prop := b = a ∨ b = chainNext a

end Runner

namespace Manager

/-- Failures of the external `command.Store.Get` collaborator:
`command.ErrNotFound` or any other error. -/
inductive StoreErr
  | notFound
  | other
  deriving DecidableEq

/-- The `command.Command` metadata resolved from the store. -/
structure Cmd where
  name : String
  command : String
  workDir : String
  deriving DecidableEq

/-- The `Status` string type of the manager package. -/
inductive Status
  | notStarted
  | running
  | stopped
  deriving DecidableEq

/-- The `Instance` struct: one job's command metadata, runner, buffer,
denormalized status, and the derived-context cancel handle (embedded
as the flag that it has been invoked). -/
structure Instance where
  command : Cmd
  runner : Runner.Runner
  buffer : Buffer.RingBuffer
  status : Status
  cancelCalled : Bool
  deriving DecidableEq

/-- The `error` values that can flow out of the manager API. -/
inductive MErr
  | commandNotFound
  | storeOther
  | notRunning
  | bufferErr (e : Buffer.BufErr)
  | runnerErr (e : Runner.GoErr)
  deriving DecidableEq

/-- The `Manager` struct: the external store is embedded as its `Get`
function, the registry map as a function from identifiers (opaque
UUIDs, embedded as `Nat`) to optional instances. -/
structure Manager where
  storeGet : Nat → Except StoreErr Cmd
  bufferCap : Int
  instances : Nat → Option Instance

def defaultBufferCapacity : Int := 1000

/-- Registry insertion `m.instances[id] = inst`. -/
def update (m : Manager) (id : Nat) (inst : Instance) : Manager :=
  { m with instances := fun j => if j = id then some inst else m.instances j }

/-- The tail of `Manager.Start` past the running-instance check:
allocate the buffer, construct the runner around `sh -c`, record the
new instance as running.  (The background task that later flips the
status is the separate `onRunnerDone` event.) -/
def startProceed (m : Manager) (id : Nat) (cmd : Cmd) : Manager × Bool × Option MErr :=
  match Buffer.New m.bufferCap with
  | .error e => (m, false, some (.bufferErr e))
  | .ok buf =>
    match Runner.New
        { command := "sh"
          args := ["-c", cmd.command]
          outputSet := true
          stopTimeout := 0 } with
    | .error e => (m, false, some (.runnerErr e))
    | .ok r =>
      (update m id
        { command := cmd
          runner := r
          buffer := buf
          status := .running
          cancelCalled := false }, true, none)

/-- `Manager.Start(ctx, id)`: resolve the job from the store first;
then, under the registry lock, return `(false, nil)` if an instance is
recorded `Running`, otherwise create and record a fresh instance. -/
def Start (m : Manager) (id : Nat) : Manager × Bool × Option MErr :=
  match m.storeGet id with
  | .error .notFound => (m, false, some .commandNotFound)
  | .error .other => (m, false, some .storeOther)
  | .ok cmd =>
    match m.instances id with
    | some inst =>
      if inst.status = .running then (m, false, none)
      else startProceed m id cmd
    | none => startProceed m id cmd

/-- The status flip performed by `Start`'s background goroutine when
the runner's blocking run returns: if the instance is still recorded,
mark it `Stopped` (the buffer is left untouched). -/
def onRunnerDone (m : Manager) (id : Nat) : Manager :=
  { m with instances := fun j =>
      if j = id then (m.instances j).map fun inst => { inst with status := .stopped }
      else m.instances j }

/-- `Manager.Stop(id)`: not-running signal when no instance is
recorded; no-op success when the instance is already `Stopped`;
otherwise cancel the derived context and invoke the runner's `Stop`. -/
def Stop (m : Manager) (id : Nat) : Manager × Option MErr :=
  match m.instances id with
  | none => (m, some .notRunning)
  | some inst =>
    if inst.status = .stopped then (m, none)
    else (update m id { inst with
      cancelCalled := true
      runner := (Runner.Stop inst.runner).1 }, none)

/-- `Manager.Output(id)`. -/
def Output (m : Manager) (id : Nat) : Except MErr (List (List Char)) :=
  match m.instances id with
  | none => .error .notRunning
  | some inst => .ok (Buffer.Lines inst.buffer)

/-- `Manager.OutputLastN(id, n)`. -/
def OutputLastN (m : Manager) (id : Nat) (n : Int) : Except MErr (List (List Char)) :=
  match m.instances id with
  | none => .error .notRunning
  | some inst => .ok (Buffer.LastN inst.buffer n)

end Manager

namespace Fixtures

/-- A valid runner configuration, as the runner tests build it. -/
def rcfg : Runner.Config :=
  { command := "sleep", args := ["60"], outputSet := true, stopTimeout := 0 }

/-- The runner `New rcfg` constructs. -/
def runner0 : Runner.Runner :=
  { config := { command := "sleep", args := ["60"], outputSet := true, stopTimeout := 5000 }
    state := .initial
    cmdSet := false
    procStarted := false
    stopped := false
    onceUsed := false
    waitDoneClosed := false
    waitErr := none
    pendingRun := none
    sigCount := 0 }

/-- A runner that has already reached `stopped`. -/
def runnerStopped : Runner.Runner :=
  { runner0 with
    state := .stopped
    stopped := true
    onceUsed := true
    cmdSet := true
    procStarted := true
    waitDoneClosed := true
    sigCount := 1 }

/-- Environment of an undisturbed clean run. -/
def envOk : Runner.StartEnv :=
  { ctxNil := false, spawnErr := none, waitResult := none,
    stopDuring := false, ctxCanceled := false }

/-- Environment of a run terminated by a concurrent `Stop`: the
process group is SIGTERMed, so `cmd.Wait` reports the signal exit. -/
def envStopped : Runner.StartEnv :=
  { ctxNil := false, spawnErr := none, waitResult := some (.exit (-1)),
    stopDuring := true, ctxCanceled := false }

/-- Environment of a spawn attempt against a missing executable. -/
def envNotFound : Runner.StartEnv :=
  { ctxNil := false, spawnErr := some .notFound, waitResult := none,
    stopDuring := false, ctxCanceled := false }

/-- A sample job definition. -/
def cmd0 : Manager.Cmd := { name := "job", command := "sleep 60", workDir := "/tmp" }

/-- An instance recorded `Running` for `cmd0`. -/
def inst0 : Manager.Instance :=
  { command := cmd0, runner := runner0, buffer := Buffer.fresh 3,
    status := .running, cancelCalled := false }

/-- A manager whose store no longer resolves identifier `0` although an
instance for `0` is still recorded `Running` (the store's `Delete` is
not guarded by the manager). -/
def mgr0 : Manager.Manager :=
  { storeGet := fun _ => .error .notFound
    bufferCap := 1000
    instances := fun j => if j = 0 then some inst0 else none }

/-- A manager whose store still resolves identifier `0`, with the
instance for `0` recorded `Running`. -/
def mgr1 : Manager.Manager :=
  { storeGet := fun j => if j = 0 then .ok cmd0 else .error .notFound
    bufferCap := 1000
    instances := fun j => if j = 0 then some inst0 else none }

end Fixtures

namespace Buffer

example : splitNL "a\nb\n".toList = [['a'], ['b'], []] := by decide
example : splitNL "ab".toList = [['a', 'b']] := by decide
example : trimCR ['a', '\r'] = ['a'] := by decide

theorem splitNL_no_nl (s : List Char) (h : '\n' ∉ s) : splitNL s = [s] := by
  induction s with
  | nil => rfl
  | cons c rest ih =>
    have hc : ¬(c = '\n') := fun e => h (by simp [e])
    have hr : '\n' ∉ rest := fun m => h (List.mem_cons_of_mem _ m)
    simp [splitNL, hc, ih hr]

theorem splitNL_append (s r : List Char) (h : '\n' ∉ s) :
    splitNL (s ++ '\n' :: r) = s :: splitNL r := by
  induction s with
  | nil => simp [splitNL]
  | cons c s' ih =>
    have hc : ¬(c = '\n') := fun e => h (by simp [e])
    have hs : '\n' ∉ s' := fun m => h (List.mem_cons_of_mem _ m)
    simp [splitNL, hc, ih hs]

theorem trimCR_concat_cr (x : List Char) : trimCR (x ++ ['\r']) = x := by
  simp [trimCR]

theorem trimCR_eq_self {l : List Char} (h : l.getLast? ≠ some '\r') : trimCR l = l := by
  simp [trimCR, h]

theorem pending_eta (rb : RingBuffer) (h : rb.pending = []) :
    { rb with pending := [] } = rb := by
  cases rb; simp_all

theorem addLine_pending (rb : RingBuffer) (l : List Char) :
    (addLine rb l).pending = rb.pending := rfl

theorem addLine_capacity (rb : RingBuffer) (l : List Char) :
    (addLine rb l).capacity = rb.capacity := rfl

theorem readAll_length (rb : RingBuffer) : (readAll rb).length = rb.capacity := by
  simp [readAll]

theorem WF_fresh {c : Nat} (hc : 0 < c) : WF (fresh c) := by
  refine ⟨by simp [fresh], hc, Nat.zero_le _, hc⟩

theorem readAll_fresh (c : Nat) : readAll (fresh c) = List.replicate c [] := by
  unfold readAll fresh
  refine List.ext_getElem (by simp) ?_
  intro i h1 h2
  simp only [List.getElem_map, List.getElem_range, List.getElem_replicate]
  simp only [List.getD_eq_getElem?_getD, List.getElem?_replicate]
  split <;> rfl

theorem WF_addLine {rb : RingBuffer} (hwf : WF rb) (l : List Char) :
    WF (addLine rb l) := by
  obtain ⟨h1, h2, h3, h4⟩ := hwf
  refine ⟨by simpa [addLine] using h1, Nat.mod_lt _ h4, ?_, h4⟩
  simp only [addLine]
  split <;> omega

theorem count_addLine {rb : RingBuffer} (hwf : WF rb) (l : List Char) :
    (addLine rb l).count = min (rb.count + 1) rb.capacity := by
  obtain ⟨h1, h2, h3, h4⟩ := hwf
  simp only [addLine]
  split <;> omega

/-- Advancing the cursor after the overwrite rotates the chronological
read by one slot: the oldest entry falls off and the new line becomes
the newest. -/
theorem readAll_addLine {rb : RingBuffer} (hwf : WF rb) (l : List Char) :
    readAll (addLine rb l) = (readAll rb).drop 1 ++ [l] := by
  obtain ⟨h1, h2, h3, h4⟩ := hwf
  have hlenL : (readAll (addLine rb l)).length = rb.capacity := by
    simp [readAll, addLine]
  have hlenD : ((readAll rb).drop 1).length = rb.capacity - 1 := by
    simp [readAll]
  refine List.ext_getElem (by have := readAll_length rb; rw [hlenL]; simp; omega) ?_
  intro i hi hi'
  rw [hlenL] at hi
  have hL : (readAll (addLine rb l)).get ⟨i, by rw [hlenL]; exact hi⟩ =
      (rb.lines.set rb.head l).getD ((rb.head + 1 + i) % rb.capacity) [] := by
    simp only [List.get_eq_getElem, readAll, addLine, List.getElem_map, List.getElem_range,
      Nat.mod_add_mod]
  rw [List.get_eq_getElem] at hL
  rw [hL]
  rcases Nat.lt_or_ge i (rb.capacity - 1) with hlt | hge
  · -- not the newest slot: the written index is untouched
    have hne : (rb.head + 1 + i) % rb.capacity ≠ rb.head := by
      rcases Nat.lt_or_ge (rb.head + 1 + i) rb.capacity with ha | ha
      · rw [Nat.mod_eq_of_lt ha]; omega
      · have hub : rb.head + 1 + i - rb.capacity < rb.capacity := by omega
        rw [Nat.mod_eq_sub_mod ha, Nat.mod_eq_of_lt hub]; omega
    have hdrop : i < ((readAll rb).drop 1).length := by rw [hlenD]; omega
    rw [List.getElem_append_left hdrop]
    have hR : ((readAll rb).drop 1).get ⟨i, hdrop⟩ =
        rb.lines.getD ((rb.head + 1 + i) % rb.capacity) [] := by
      simp only [List.get_eq_getElem, readAll, List.getElem_drop, List.getElem_map,
        List.getElem_range]
      congr 2
      omega
    rw [List.get_eq_getElem] at hR
    rw [hR]
    simp only [List.getD_eq_getElem?_getD, List.getElem?_set_ne (Ne.symm hne)]
  · -- the newest slot: reads the line just written
    have hieq : i = rb.capacity - 1 := by omega
    rw [List.getElem_append_right (by rw [hlenD]; omega)]
    have h0 : i - ((readAll rb).drop 1).length = 0 := by rw [hlenD]; omega
    simp only [h0, List.getElem_cons_zero]
    have hh : (rb.head + 1 + i) % rb.capacity = rb.head := by
      have he : rb.head + 1 + i = rb.head + rb.capacity := by omega
      rw [he, Nat.add_mod_right, Nat.mod_eq_of_lt h2]
    rw [hh, List.getD_eq_getElem?_getD,
      List.getElem?_set_self (show rb.head < rb.lines.length by omega)]
    rfl

theorem natCast_tmod (m n : Nat) : ((m : Int).tmod (n : Int)) = ((m % n : Nat) : Int) := by
  rw [Int.tmod_eq_emod (Int.natCast_nonneg m) (Int.natCast_nonneg n)]
  exact (Int.ofNat_emod m n).symm

/-- Go's `(head - fromBuffer + capacity) % capacity` start offset,
followed by the per-iteration `(start + i) % capacity`, lands on the
same slot as reading the chronological order `readAll` from position
`capacity - fromBuffer + i`. -/
theorem start_index_eq {head cap fb : Nat} (i : Nat) (hfb : fb ≤ cap) :
    (((((head : Int) - (fb : Int) + (cap : Int)).tmod (cap : Int)) + (i : Int)).tmod
        (cap : Int)).toNat
      = (head + (cap - fb + i)) % cap := by
  have hA : (head : Int) - (fb : Int) + (cap : Int) = ((head + cap - fb : Nat) : Int) := by
    push_cast [Nat.cast_sub (by omega : fb ≤ head + cap)]
    ring
  rw [hA, natCast_tmod]
  have hB : (((head + cap - fb) % cap : Nat) : Int) + (i : Int)
      = (((head + cap - fb) % cap + i : Nat) : Int) := by push_cast; ring
  rw [hB, natCast_tmod, Int.toNat_natCast, Nat.mod_add_mod]
  congr 1
  omega

/-- The circular read loop of `getLines` returns the last `fb` entries
of the chronological slot order. -/
theorem store_eq_drop {rb : RingBuffer} (hwf : WF rb) {fb : Nat} (hfb : 0 < fb)
    (hle : fb ≤ rb.capacity) :
    ((List.range fb).map fun (j : Nat) =>
        rb.lines.getD
          ((((rb.head : Int) - (fb : Int) + (rb.capacity : Int)).tmod (rb.capacity : Int)
              + (j : Int)).tmod (rb.capacity : Int)).toNat [])
      = (readAll rb).drop (rb.capacity - fb) := by
  obtain ⟨h1, h2, h3, h4⟩ := hwf
  refine List.ext_getElem (by simp [readAll]; omega) ?_
  intro i hi hi'
  have hib : i < fb := by simpa using hi
  have hL : ((List.range fb).map fun (j : Nat) =>
        rb.lines.getD
          ((((rb.head : Int) - (fb : Int) + (rb.capacity : Int)).tmod (rb.capacity : Int)
              + (j : Int)).tmod (rb.capacity : Int)).toNat []).get ⟨i, hi⟩
      = rb.lines.getD ((rb.head + (rb.capacity - fb + i)) % rb.capacity) [] := by
    simp only [List.get_eq_getElem, List.getElem_map, List.getElem_range]
    rw [start_index_eq i hle]
  rw [List.get_eq_getElem] at hL
  rw [hL]
  have hR : ((readAll rb).drop (rb.capacity - fb)).get ⟨i, hi'⟩
      = rb.lines.getD ((rb.head + (rb.capacity - fb + i)) % rb.capacity) [] := by
    simp only [List.get_eq_getElem, readAll, List.getElem_drop, List.getElem_map,
      List.getElem_range]
  rw [List.get_eq_getElem] at hR
  rw [hR]

theorem visible_length {rb : RingBuffer} (hwf : WF rb) : (visible rb).length = availN rb := by
  obtain ⟨h1, h2, h3, h4⟩ := hwf
  unfold visible availN
  rw [List.length_append, List.length_drop, readAll_length]
  split <;> simp <;> omega

/-- Central characterisation of the circular read: `getLines rb n` is
the visible snapshot with all but the last `n` entries dropped (with
`n` clamped to `[0, availN rb]`). -/
theorem getLines_eq {rb : RingBuffer} (hwf : WF rb) (n : Int) :
    getLines rb n = (visible rb).drop (availN rb - n.toNat) := by
  obtain ⟨h1, h2, h3, h4⟩ := hwf
  have hvl : (visible rb).length = availN rb := visible_length ⟨h1, h2, h3, h4⟩
  have hstored : ((readAll rb).drop (rb.capacity - rb.count)).length = rb.count := by
    rw [List.length_drop, readAll_length]; omega
  by_cases hp : rb.pending = []
  · -- no pending fragment
    have hav : availN rb = rb.count := by simp [availN, hp]
    have hvis : visible rb = (readAll rb).drop (rb.capacity - rb.count) := by
      simp [visible, hp]
    simp only [getLines, hp, ne_eq, not_true_eq_false, if_false, ite_false,
      add_zero, List.append_nil]
    rcases le_or_lt n 0 with hn0 | hn0
    · rw [show (if n > (rb.count : Int) then (rb.count : Int) else n) = n from by
        rw [if_neg (by omega)]]
      rw [if_pos hn0, Int.toNat_of_nonpos hn0, Nat.sub_zero, ← hvl, List.drop_length]
    · have hnN : 0 < n.toNat := by omega
      rcases le_or_lt (rb.count : Int) n with hna | hna
      · -- request covers everything available
        rw [show (if n > (rb.count : Int) then (rb.count : Int) else n) = (rb.count : Int)
          from by split <;> omega]
        have hdr : availN rb - n.toNat = 0 := by omega
        rw [hdr, List.drop_zero, hvis]
        rcases Nat.eq_zero_or_pos rb.count with hc0 | hc0
        · rw [if_pos (show ((rb.count : Int) ≤ 0) by omega)]
          rw [hc0, Nat.sub_zero, ← readAll_length rb, List.drop_length]
        · rw [if_neg (show ¬((rb.count : Int) ≤ 0) by omega),
            if_pos (show ((rb.count : Int) > 0) by omega), Int.toNat_natCast]
          exact store_eq_drop ⟨h1, h2, h3, h4⟩ hc0 h3
      · -- request is a strict part of what is stored
        rw [show (if n > (rb.count : Int) then (rb.count : Int) else n) = n from by
          rw [if_neg (by omega)]]
        rw [if_neg (show ¬(n ≤ 0) by omega), if_pos (show n > 0 by omega)]
        have hnc : n.toNat ≤ rb.count := by omega
        rw [show n = ((n.toNat : Nat) : Int) from (Int.toNat_of_nonneg (by omega)).symm]
        simp only [Int.toNat_natCast]
        rw [store_eq_drop ⟨h1, h2, h3, h4⟩ hnN (by omega)]
        rw [hvis, hav, List.drop_drop]
        congr 1
        omega
  · -- a pending fragment occupies the final slot
    have hav : availN rb = rb.count + 1 := by simp [availN, hp]
    have hvis : visible rb
        = (readAll rb).drop (rb.capacity - rb.count) ++ [rb.pending] := by
      simp [visible, hp]
    simp only [getLines, hp, ne_eq, not_false_eq_true, if_true, ite_true]
    rcases le_or_lt n 0 with hn0 | hn0
    · rw [show (if n > (rb.count : Int) + 1 then (rb.count : Int) + 1 else n) = n from by
        rw [if_neg (by omega)]]
      rw [if_pos hn0, Int.toNat_of_nonpos hn0, Nat.sub_zero, ← hvl, List.drop_length]
    · have hnN : 0 < n.toNat := by omega
      rcases le_or_lt ((rb.count : Int) + 1) n with hna | hna
      · -- request covers everything available
        rw [show (if n > (rb.count : Int) + 1 then (rb.count : Int) + 1 else n)
            = (rb.count : Int) + 1 from by split <;> omega]
        rw [if_neg (show ¬((rb.count : Int) + 1 ≤ 0) by omega)]
        have hdr : availN rb - n.toNat = 0 := by omega
        rw [hdr, List.drop_zero, hvis]
        rcases Nat.eq_zero_or_pos rb.count with hc0 | hc0
        · rw [if_neg (show ¬((rb.count : Int) + 1 - 1 > 0) by omega)]
          rw [hc0, Nat.sub_zero, ← readAll_length rb, List.drop_length]
        · rw [if_pos (show ((rb.count : Int) + 1 - 1 > 0) by omega)]
          rw [show (rb.count : Int) + 1 - 1 = ((rb.count : Nat) : Int) from by omega,
            Int.toNat_natCast]
          rw [store_eq_drop ⟨h1, h2, h3, h4⟩ hc0 h3]
      · -- request is a strict part of what is available
        rw [show (if n > (rb.count : Int) + 1 then (rb.count : Int) + 1 else n) = n from by
          rw [if_neg (by omega)]]
        rw [if_neg (show ¬(n ≤ 0) by omega)]
        rcases eq_or_lt_of_le (show (1 : Int) ≤ n by omega) with h1n | h1n
        · -- only the pending fragment is requested
          rw [if_neg (show ¬(n - 1 > 0) by omega)]
          rw [hvis, hav]
          have hdr : rb.count + 1 - n.toNat = rb.count := by omega
          rw [hdr, List.drop_append_of_le_length (by omega),
            List.drop_eq_nil_of_le (le_of_eq hstored), List.nil_append]
        · -- some stored lines plus the pending fragment
          rw [if_pos (show (n - 1 > 0) by omega)]
          have hnc : n.toNat - 1 ≤ rb.count := by omega
          rw [show n - 1 = (((n.toNat - 1 : Nat)) : Int) from by omega]
          simp only [Int.toNat_natCast]
          rw [store_eq_drop ⟨h1, h2, h3, h4⟩ (by omega) (by omega)]
          rw [hvis, hav]
          rw [List.drop_append_of_le_length (by omega), List.drop_drop]
          congr 2
          omega

theorem availN_le {rb : RingBuffer} (hwf : WF rb) : availN rb ≤ rb.capacity + 1 := by
  have := hwf.2.2.1
  unfold availN
  split <;> omega

theorem Lines_eq_visible {rb : RingBuffer} (hwf : WF rb) : Lines rb = visible rb := by
  unfold Lines
  rw [getLines_eq hwf]
  have h1 : ((rb.capacity : Int) + 1).toNat = rb.capacity + 1 := by omega
  have h2 : availN rb - ((rb.capacity : Int) + 1).toNat = 0 := by
    have := availN_le hwf; omega
  rw [h2, List.drop_zero]

/-- State of a buffer after a whole list of complete lines has been
stored: well-formed, pending untouched, saturating count, and the
chronological slot order is the input shifted in from the right. -/
theorem foldl_addLine_spec (ls : List (List Char)) (rb : RingBuffer) (hwf : WF rb) :
    WF (ls.foldl addLine rb) ∧
    (ls.foldl addLine rb).pending = rb.pending ∧
    (ls.foldl addLine rb).capacity = rb.capacity ∧
    (ls.foldl addLine rb).count = min (rb.count + ls.length) rb.capacity ∧
    readAll (ls.foldl addLine rb) = (readAll rb ++ ls).drop ls.length := by
  induction ls generalizing rb with
  | nil =>
    refine ⟨hwf, rfl, rfl, ?_, by simp⟩
    have := hwf.2.2.1
    simp
    omega
  | cons l ls ih =>
    obtain ⟨h1, h2, h3, h4⟩ := hwf
    have hwf' : WF (addLine rb l) := WF_addLine ⟨h1, h2, h3, h4⟩ l
    obtain ⟨iwf, ipend, icap, icount, iread⟩ := ih (addLine rb l) hwf'
    rw [List.foldl_cons]
    refine ⟨iwf, ?_, ?_, ?_, ?_⟩
    · rw [ipend, addLine_pending]
    · rw [icap, addLine_capacity]
    · rw [icount, count_addLine ⟨h1, h2, h3, h4⟩ l, addLine_capacity]
      simp
      omega
    · rw [iread, readAll_addLine ⟨h1, h2, h3, h4⟩ l]
      have hne : readAll rb ≠ [] := by
        intro e
        have := readAll_length rb
        rw [e] at this
        simp at this
        omega
      obtain ⟨a, t, he⟩ := List.exists_cons_of_ne_nil hne
      rw [he]
      simp [List.drop_succ_cons]

/-- After storing `ms` complete lines into a fresh buffer of capacity
`C`, the snapshot is exactly the last `min |ms| C` lines in order. -/
theorem Lines_foldl_fresh {C : Nat} (hC : 0 < C) (ms : List (List Char)) :
    Lines (ms.foldl addLine (fresh C)) = ms.drop (ms.length - C) := by
  obtain ⟨wf, hpend, hcap, hcount, hread⟩ := foldl_addLine_spec ms (fresh C) (WF_fresh hC)
  rw [Lines_eq_visible wf]
  unfold visible
  rw [hread, readAll_fresh, hcap, hcount, hpend]
  show (((List.replicate C [] ++ ms).drop ms.length).drop
      (C - min ((fresh C).count + ms.length) C) ++ _) = _
  rw [show (fresh C).count = 0 from rfl]
  rw [show (fresh C).pending = ([] : List Char) from rfl]
  rw [if_pos rfl, List.append_nil, List.drop_drop]
  have he : ms.length + (C - min (0 + ms.length) C) = C + (ms.length - C) := by omega
  rw [he]
  have hda := @List.drop_append (List Char) (List.replicate C ([] : List Char)) ms
    (ms.length - C)
  simpa using hda

/-- Writing a single line-feed-terminated line with no interior line
feed onto a buffer with no pending fragment is exactly `addLine` of the
carriage-return-trimmed line. -/
theorem Write_line_eq_addLine (rb : RingBuffer) (l : List Char)
    (hp : rb.pending = []) (hnl : '\n' ∉ l) :
    Write rb (l ++ ['\n']) = addLine rb (trimCR l) := by
  have hne : l ++ ['\n'] ≠ [] := by simp
  have hsp : splitNL (l ++ ['\n']) = [l, []] := by
    have := splitNL_append l [] hnl
    simpa [splitNL] using this
  have hdl : [l, ([] : List Char)].dropLast = [l] := rfl
  have hgl : [l, ([] : List Char)].getLastD [] = [] := rfl
  simp only [Write, if_neg hne, hp, List.nil_append, hsp, hdl, hgl, if_pos rfl,
    List.foldl_cons, List.foldl_nil]
  rw [pending_eta rb hp]
  simp

/-- Writing a list of well-behaved terminated lines one `Write` call at
a time is the same as storing them one `addLine` at a time. -/
theorem foldl_Write_eq (ls : List (List Char)) (rb : RingBuffer) (hp : rb.pending = [])
    (hok : ∀ l ∈ ls, '\n' ∉ l ∧ l.getLast? ≠ some '\r') :
    ls.foldl (fun b l => Write b (l ++ ['\n'])) rb = ls.foldl addLine rb := by
  induction ls generalizing rb with
  | nil => rfl
  | cons l ls ih =>
    have h := hok l (by simp)
    rw [List.foldl_cons, List.foldl_cons, Write_line_eq_addLine rb l hp h.1,
      trimCR_eq_self h.2]
    exact ih (addLine rb l) (by rw [addLine_pending]; exact hp)
      (fun x hx => hok x (by simp [hx]))

end Buffer

namespace Runner

theorem New_fields {cfg : Config} {r : Runner} (h : New cfg = .ok r) :
    r.state = .initial ∧ r.pendingRun = none ∧ r.stopped = false ∧
      r.waitDoneClosed = false ∧ r.sigCount = 0 ∧ r.cmdSet = false ∧
      r.procStarted = false ∧ r.onceUsed = false := by
  unfold New at h
  split at h
  · cases h
  · split at h
    · cases h
    · cases h
      exact ⟨rfl, rfl, rfl, rfl, rfl, rfl, rfl, rfl⟩

theorem applyOp_step (r : Runner) (op : Op) (hinv : Inv r) :
    stepOK r.state (applyOp r op).state ∧ Inv (applyOp r op) := by
  cases op with
  | opStart env =>
    show stepOK r.state (spawnPhase r env).1.state ∧ Inv (spawnPhase r env).1
    unfold spawnPhase
    by_cases h1 : env.ctxNil = true
    · rw [if_pos h1]
      exact ⟨Or.inl rfl, hinv⟩
    · rw [if_neg h1]
      by_cases h2 : r.state = State.initial
      · rw [if_neg (not_not_intro h2)]
        have hpr : r.pendingRun = none := by
          rcases hinv with h | h
          · exact h
          · rw [h2] at h
            cases h
        cases henv : env.spawnErr with
        | some e =>
          exact ⟨Or.inl rfl, Or.inl hpr⟩
        | none =>
          refine ⟨Or.inr ?_, Or.inr rfl⟩
          rw [h2]
          rfl
      · rw [if_pos h2]
        exact ⟨Or.inl rfl, hinv⟩
  | opExit =>
    show stepOK r.state (exitPhase r).1.state ∧ Inv (exitPhase r).1
    unfold exitPhase
    cases hpr : r.pendingRun with
    | none =>
      exact ⟨Or.inl rfl, hinv⟩
    | some env =>
      have hst : r.state = State.running := by
        rcases hinv with h | h
        · rw [hpr] at h
          cases h
        · exact h
      refine ⟨Or.inr ?_, Or.inl rfl⟩
      rw [hst]
      rfl
  | opStop =>
    show stepOK r.state (Stop r).1.state ∧ Inv (Stop r).1
    unfold Stop doStop
    by_cases h1 : r.state = State.initial ∨ r.state = State.stopped
    · rw [if_pos h1]
      exact ⟨Or.inl rfl, hinv⟩
    · rw [if_neg h1]
      by_cases h2 : r.onceUsed = true
      · rw [if_pos h2]
        exact ⟨Or.inl rfl, hinv⟩
      · rw [if_neg h2]
        by_cases h3 : (({ r with onceUsed := true, stopped := true } : Runner).cmdSet
            && ({ r with onceUsed := true, stopped := true } : Runner).procStarted) = true
        · rw [if_pos h3]
          exact ⟨Or.inl rfl, hinv⟩
        · rw [if_neg h3]
          exact ⟨Or.inl rfl, hinv⟩

theorem traceFrom_cons_head (r : Runner) (ops : List Op) :
    ∃ t, traceFrom r ops = r.state :: t := by
  cases ops <;> exact ⟨_, rfl⟩

theorem traceFrom_chain (r : Runner) (ops : List Op) (hinv : Inv r) :
    List.Chain' stepOK (traceFrom r ops) := by
  induction ops generalizing r with
  | nil => simp [traceFrom]
  | cons op ops ih =>
    rw [traceFrom]
    obtain ⟨t, ht⟩ := traceFrom_cons_head (applyOp r op) ops
    rw [ht, List.chain'_cons]
    constructor
    · exact (applyOp_step r op hinv).1
    · rw [← ht]
      exact ih (applyOp r op) (applyOp_step r op hinv).2

theorem chainNext_ne_self {a : State} (h : chainNext a ≠ a) : a ≠ State.stopped := by
  intro e
  rw [e] at h
  exact h rfl

theorem segFrom_cons {a : State} (h : a ≠ State.stopped) :
    segFrom a = a :: segFrom (chainNext a) := by
  cases a with
  | initial => rfl
  | running => rfl
  | stopped => exact absurd rfl h

theorem destutter_prefix_seg (t : List State) (a : State)
    (hc : List.Chain' stepOK (a :: t)) :
    List.destutter (· ≠ ·) (a :: t) <+: segFrom a := by
  induction t generalizing a with
  | nil =>
    rw [List.destutter_singleton]
    cases a <;> simp [segFrom]
  | cons b t ih =>
    have hab : stepOK a b := (List.chain'_cons.mp hc).1
    have hct : List.Chain' stepOK (b :: t) := (List.chain'_cons.mp hc).2
    rw [List.destutter_cons_cons]
    by_cases heq : a ≠ b
    · rw [if_pos heq]
      have hb : b = chainNext a := by
        rcases hab with h | h
        · exact absurd h.symm heq
        · exact h
      have hane : a ≠ State.stopped := by
        apply chainNext_ne_self
        rw [← hb]
        intro e
        exact heq e.symm
      rw [segFrom_cons hane, ← hb]
      exact (List.cons_prefix_cons).mpr ⟨rfl, ih b hct⟩
    · rw [if_neg heq]
      have hba : b = a := by
        by_contra hne
        exact heq (fun e => hne e.symm)
      have hca : List.Chain' stepOK (a :: t) := by
        rw [← hba]
        exact hct
      exact ih a hca

/-- Any observable state sequence of a runner built by `New` has its
adjacent-duplicate-free form a prefix of
`[initial, running, stopped]`. -/
theorem trace_lifecycle_of_New {cfg : Config} {r : Runner} (h : New cfg = .ok r)
    (ops : List Op) :
    List.destutter (· ≠ ·) (traceFrom r ops)
      <+: [State.initial, State.running, State.stopped] := by
  obtain ⟨hst, hpr, _⟩ := New_fields h
  obtain ⟨t, ht⟩ := traceFrom_cons_head r ops
  have hc := traceFrom_chain r ops (Or.inl hpr)
  rw [ht] at hc ⊢
  rw [hst] at hc ⊢
  exact destutter_prefix_seg t State.initial hc

end Runner

namespace Buffer

theorem getLastD_mem {α : Type} (a : α) (l : List α) (d : α) :
    (a :: l).getLastD d ∈ a :: l := by
  induction l generalizing a d with
  | nil => simp [List.getLastD_cons]
  | cons b t ih =>
    rw [List.getLastD_cons]
    exact List.mem_cons_of_mem a (ih b a)

theorem splitNL_mem_no_nl (s : List Char) (x : List Char) (hx : x ∈ splitNL s) :
    '\n' ∉ x := by
  induction s generalizing x with
  | nil =>
    simp only [splitNL, List.mem_singleton] at hx
    subst hx
    simp
  | cons c rest ih =>
    by_cases hc : c = '\n'
    · subst hc
      rw [show splitNL ('\n' :: rest) = [] :: splitNL rest from by simp [splitNL]] at hx
      rcases List.mem_cons.mp hx with h | h
      · subst h; simp
      · exact ih x h
    · cases hsp : splitNL rest with
      | nil =>
        have hx2 : x ∈ [[c]] := by
          rw [show splitNL (c :: rest) = [[c]] from by simp [splitNL, hc, hsp]] at hx
          exact hx
        simp only [List.mem_singleton] at hx2
        subst hx2
        intro hm
        simp only [List.mem_singleton] at hm
        exact hc hm.symm
      | cons hd tl =>
        have hx2 : x ∈ (c :: hd) :: tl := by
          rw [show splitNL (c :: rest) = (c :: hd) :: tl from by
            simp [splitNL, hc, hsp]] at hx
          exact hx
        rcases List.mem_cons.mp hx2 with h1 | h1
        · subst h1
          intro hm
          rcases List.mem_cons.mp hm with h2 | h2
          · exact hc h2.symm
          · exact ih hd (by rw [hsp]; exact List.mem_cons_self hd tl) h2
        · exact ih x (by rw [hsp]; exact List.mem_cons_of_mem _ h1)

/-- `Write` keeps the invariant that the pending fragment contains no
line feed: the retained tail is always a fragment produced by the
split. -/
theorem Write_pending_no_nl (rb : RingBuffer) (p : List Char)
    (h : '\n' ∉ rb.pending) : '\n' ∉ (Write rb p).pending := by
  unfold Write
  by_cases hp : p = []
  · rw [if_pos hp]
    exact h
  · rw [if_neg hp]
    set parts := splitNL (rb.pending ++ p) with hparts
    by_cases hl : parts.getLastD [] = []
    · rw [if_pos hl]
      have : (parts.dropLast.foldl (fun b part => addLine b (trimCR part))
          { rb with pending := [] }).pending = ([] : List Char) := by
        have hp0 : ({ rb with pending := [] } : RingBuffer).pending = ([] : List Char) := rfl
        generalize { rb with pending := [] } = b at hp0 ⊢
        induction parts.dropLast generalizing b with
        | nil => exact hp0
        | cons x xs ihx => exact ihx _ (by rw [addLine_pending]; exact hp0)
      rw [this]
      simp
    · rw [if_neg hl]
      show '\n' ∉ parts.getLastD []
      have hmem : parts.getLastD [] ∈ parts := by
        cases hpp : parts with
        | nil =>
          rw [hpp] at hl
          exact absurd rfl hl
        | cons a t =>
          exact getLastD_mem a t []
      exact splitNL_mem_no_nl _ _ hmem

end Buffer

namespace Runner

/-- Full characterisation of a blocking `Start` that spawns and runs to
completion: the terminal runner state and the returned error. -/
theorem Start_run {r : Runner} {env : StartEnv} (hst : r.state = .initial)
    (hcn : env.ctxNil = false) (hsp : env.spawnErr = none) :
    Start r env =
      ({ r with
          cmdSet := true
          procStarted := true
          state := .stopped
          stopped := r.stopped || env.stopDuring
          onceUsed := r.onceUsed || env.stopDuring
          sigCount := r.sigCount + (if env.stopDuring && !r.onceUsed then 1 else 0)
          waitErr := env.waitResult
          waitDoneClosed := true
          pendingRun := none },
        if (r.stopped || env.stopDuring) || env.ctxCanceled then some .canceled
          else env.waitResult.map .waitE) := by
  unfold Start spawnPhase
  rw [if_neg (by rw [hcn]; exact Bool.false_ne_true), if_neg (not_not_intro hst), hsp]
  unfold exitPhase
  rfl

/-- Characterisation of a `Start` whose spawn attempt fails: the error
is returned as-is and only `cmd` has been assigned. -/
theorem Start_spawn_fail {r : Runner} {env : StartEnv} {e : SpawnErr}
    (hst : r.state = .initial) (hcn : env.ctxNil = false)
    (hsp : env.spawnErr = some e) :
    Start r env = ({ r with cmdSet := true }, some (.spawnE e)) := by
  unfold Start spawnPhase
  rw [if_neg (by rw [hcn]; exact Bool.false_ne_true), if_neg (not_not_intro hst), hsp]

/-- A `Start` against a runner that is not `Initial` is rejected with
the already-started error and changes nothing. -/
theorem Start_not_initial {r : Runner} {env : StartEnv}
    (hst : r.state ≠ .initial) (hcn : env.ctxNil = false) :
    Start r env = (r, some .alreadyStarted) := by
  unfold Start spawnPhase
  rw [if_neg (by rw [hcn]; exact Bool.false_ne_true), if_pos hst]

end Runner

/-- C2: For every RingBuffer created with capacity `C > 0`, after
writing more than `C` complete (newline-terminated) lines, `Lines()`
returns exactly `C` elements, equal to the `C` most recently written
lines in oldest-to-newest order. -/
theorem claim_C2 (C : Nat) (ls : List (List Char)) (hC : 0 < C) (hlen : C < ls.length)
    (hok : ∀ l ∈ ls, '\n' ∉ l ∧ l.getLast? ≠ some '\r') :
    Buffer.New (C : Int) = .ok (Buffer.fresh C) ∧
    Buffer.Lines (ls.foldl (fun b l => Buffer.Write b (l ++ ['\n'])) (Buffer.fresh C))
      = ls.drop (ls.length - C) ∧
    (Buffer.Lines (ls.foldl (fun b l => Buffer.Write b (l ++ ['\n'])) (Buffer.fresh C))).length
      = C := by
  have hnew : Buffer.New (C : Int) = .ok (Buffer.fresh C) := by
    unfold Buffer.New
    rw [if_neg (by omega), Int.toNat_natCast]
  have hw := Buffer.foldl_Write_eq ls (Buffer.fresh C) rfl hok
  refine ⟨hnew, ?_, ?_⟩
  · rw [hw, Buffer.Lines_foldl_fresh hC]
  · rw [hw, Buffer.Lines_foldl_fresh hC, List.length_drop]
    omega

/-- Witness for C2: capacity 3, lines `a, b, c, d, e` written one
`Write` call each; `Lines()` is `[c, d, e]` of length 3. -/
theorem claim_C2_witness :
    Buffer.New 3 = .ok (Buffer.fresh 3) ∧
    Buffer.Lines ([['a'], ['b'], ['c'], ['d'], ['e']].foldl
        (fun b l => Buffer.Write b (l ++ ['\n'])) (Buffer.fresh 3))
      = [['c'], ['d'], ['e']] ∧
    (Buffer.Lines ([['a'], ['b'], ['c'], ['d'], ['e']].foldl
        (fun b l => Buffer.Write b (l ++ ['\n'])) (Buffer.fresh 3))).length = 3 := by
  have h := claim_C2 3 [['a'], ['b'], ['c'], ['d'], ['e']] (by decide) (by decide)
    (by decide)
  exact ⟨h.1, by rw [h.2.1]; decide, h.2.2⟩

/-- C3: `Write` appends the incoming bytes to the pending fragment,
extracts every complete line-feed-delimited line with an immediately
preceding carriage return trimmed (so `\n` and `\r\n` normalize
identically), a bare `\r` or any other unterminated tail is not a
terminator and is retained as the new pending fragment, which `Lines()`
reports as the final element; writing `"hel"` then `"lo\n"` yields the
single line `"hello"`. -/
theorem claim_C3 :
    (∀ (rb : Buffer.RingBuffer) (p : List Char), p ≠ [] →
      Buffer.Write rb p = Buffer.Write { rb with pending := [] } (rb.pending ++ p)) ∧
    (∀ (rb : Buffer.RingBuffer) (l : List Char), '\n' ∉ rb.pending → '\n' ∉ l →
      (rb.pending ++ l).getLast? ≠ some '\r' →
      Buffer.Write rb (l ++ ['\r', '\n']) = Buffer.Write rb (l ++ ['\n'])) ∧
    (∀ (rb : Buffer.RingBuffer) (l : List Char), '\n' ∉ rb.pending → '\n' ∉ l → l ≠ [] →
      Buffer.Write rb l = { rb with pending := rb.pending ++ l }) ∧
    (∀ rb : Buffer.RingBuffer, rb.pending ≠ [] →
      (Buffer.Lines rb).getLast? = some rb.pending) ∧
    Buffer.Lines (Buffer.Write (Buffer.Write (Buffer.fresh 10) "hel".toList)
      "lo\n".toList) = ["hello".toList] := by
  refine ⟨?_, ?_, ?_, ?_, by decide⟩
  · intro rb p hp
    have hp2 : rb.pending ++ p ≠ [] := fun h => hp (List.append_eq_nil.mp h).2
    unfold Buffer.Write
    rw [if_neg hp, if_neg hp2]
    rfl
  · intro rb l hq hl hcr
    have h1 : '\n' ∉ rb.pending ++ l := by
      intro hm
      rcases List.mem_append.mp hm with h | h
      exacts [hq h, hl h]
    have h2 : '\n' ∉ rb.pending ++ l ++ ['\r'] := by
      intro hm
      rcases List.mem_append.mp hm with h | h
      · exact h1 h
      · simp at h
    have e1 : rb.pending ++ (l ++ ['\r', '\n'])
        = (rb.pending ++ l ++ ['\r']) ++ '\n' :: [] := by simp
    have e2 : rb.pending ++ (l ++ ['\n']) = (rb.pending ++ l) ++ '\n' :: [] := by simp
    have hsp1 : Buffer.splitNL (rb.pending ++ (l ++ ['\r', '\n']))
        = [rb.pending ++ l ++ ['\r'], []] := by
      rw [e1, Buffer.splitNL_append _ _ h2]
      rfl
    have hsp2 : Buffer.splitNL (rb.pending ++ (l ++ ['\n']))
        = [rb.pending ++ l, []] := by
      rw [e2, Buffer.splitNL_append _ _ h1]
      rfl
    have hdl1 : [rb.pending ++ l ++ ['\r'], ([] : List Char)].dropLast
        = [rb.pending ++ l ++ ['\r']] := rfl
    have hdl2 : [rb.pending ++ l, ([] : List Char)].dropLast = [rb.pending ++ l] := rfl
    have hgl1 : [rb.pending ++ l ++ ['\r'], ([] : List Char)].getLastD [] = [] := rfl
    have hgl2 : [rb.pending ++ l, ([] : List Char)].getLastD [] = [] := rfl
    have hL : Buffer.Write rb (l ++ ['\r', '\n'])
        = Buffer.addLine { rb with pending := [] } (rb.pending ++ l) := by
      simp only [Buffer.Write, if_neg (show ¬(l ++ ['\r', '\n'] = []) by simp), hsp1,
        hdl1, hgl1, if_pos rfl, List.foldl_cons, List.foldl_nil, Buffer.trimCR_concat_cr]
      simp
    have hR : Buffer.Write rb (l ++ ['\n'])
        = Buffer.addLine { rb with pending := [] } (rb.pending ++ l) := by
      simp only [Buffer.Write, if_neg (show ¬(l ++ ['\n'] = []) by simp), hsp2,
        hdl2, hgl2, if_pos rfl, List.foldl_cons, List.foldl_nil,
        Buffer.trimCR_eq_self hcr]
      simp
    rw [hL, hR]
  · intro rb l hq hl hne
    have h1 : '\n' ∉ rb.pending ++ l := by
      intro hm
      rcases List.mem_append.mp hm with h | h
      exacts [hq h, hl h]
    have hne2 : rb.pending ++ l ≠ [] := fun h => hne (List.append_eq_nil.mp h).2
    have hsp : Buffer.splitNL (rb.pending ++ l) = [rb.pending ++ l] :=
      Buffer.splitNL_no_nl _ h1
    have hdl : [rb.pending ++ l].dropLast = ([] : List (List Char)) := rfl
    have hgl : [rb.pending ++ l].getLastD [] = rb.pending ++ l := rfl
    simp only [Buffer.Write, if_neg hne, hsp, hdl, hgl, if_neg hne2,
      List.foldl_nil]
  · intro rb hp
    unfold Buffer.Lines Buffer.getLines
    simp only [hp, ne_eq, not_false_eq_true, if_true, ite_true]
    rw [if_neg (show ¬((if ((rb.capacity : Int) + 1) > (rb.count : Int) + 1
        then (rb.count : Int) + 1 else ((rb.capacity : Int) + 1)) ≤ 0) from by
      split <;> omega)]
    rw [List.getLast?_concat]

/-- Witness for C3: the universally quantified parts instantiated on a
buffer holding the pending fragment `"x"`. -/
theorem claim_C3_witness :
    (Buffer.Write (Buffer.Write (Buffer.fresh 3) ['x']) ['a', '\n']
      = Buffer.Write { Buffer.Write (Buffer.fresh 3) ['x'] with pending := [] }
          ((Buffer.Write (Buffer.fresh 3) ['x']).pending ++ ['a', '\n'])) ∧
    (Buffer.Write (Buffer.fresh 3) (['a'] ++ ['\r', '\n'])
      = Buffer.Write (Buffer.fresh 3) (['a'] ++ ['\n'])) ∧
    (Buffer.Write (Buffer.fresh 3) ['x']
      = { Buffer.fresh 3 with pending := (Buffer.fresh 3).pending ++ ['x'] }) ∧
    (Buffer.Lines (Buffer.Write (Buffer.fresh 3) ['x'])).getLast?
      = some (Buffer.Write (Buffer.fresh 3) ['x']).pending :=
  ⟨claim_C3.1 (Buffer.Write (Buffer.fresh 3) ['x']) ['a', '\n'] (by decide),
   claim_C3.2.1 (Buffer.fresh 3) ['a'] (by decide) (by decide) (by decide),
   claim_C3.2.2.1 (Buffer.fresh 3) ['x'] (by decide) (by decide) (by decide),
   claim_C3.2.2.2.1 (Buffer.Write (Buffer.fresh 3) ['x']) (by decide)⟩

/-- C6: `LastN(n)` returns an empty sequence for `n ≤ 0`, everything
available when `n` is at least the number of available entries, and in
every case a suffix of `Lines()` in the same oldest-to-newest order. -/
theorem claim_C6 (rb : Buffer.RingBuffer) (hwf : Buffer.WF rb) (n : Int) :
    (n ≤ 0 → Buffer.LastN rb n = []) ∧
    ((Buffer.availN rb : Int) ≤ n → Buffer.LastN rb n = Buffer.Lines rb) ∧
    (Buffer.LastN rb n) <:+ (Buffer.Lines rb) := by
  refine ⟨?_, ?_, ?_⟩
  · intro h
    unfold Buffer.LastN
    rw [if_pos h]
  · intro h
    unfold Buffer.LastN
    by_cases h0 : n ≤ 0
    · rw [if_pos h0]
      have hv := Buffer.visible_length hwf
      have hz : Buffer.availN rb = 0 := by omega
      rw [Buffer.Lines_eq_visible hwf]
      exact (List.eq_nil_of_length_eq_zero (by rw [hv, hz])).symm
    · rw [if_neg h0, Buffer.getLines_eq hwf, Buffer.Lines_eq_visible hwf]
      have hz : Buffer.availN rb - n.toNat = 0 := by omega
      rw [hz, List.drop_zero]
  · by_cases h0 : n ≤ 0
    · rw [show Buffer.LastN rb n = [] from by unfold Buffer.LastN; rw [if_pos h0]]
      exact List.nil_suffix
    · unfold Buffer.LastN
      rw [if_neg h0, Buffer.getLines_eq hwf, Buffer.Lines_eq_visible hwf]
      exact List.drop_suffix _ _

/-- Witness for C6 at a buffer holding `a, b` plus pending `c`, probed
with `n = -1`, `n = 5` and `n = 2`. -/
theorem claim_C6_witness :
    (Buffer.LastN (Buffer.Write (Buffer.fresh 3) "a\nb\nc".toList) (-1) = []) ∧
    (Buffer.LastN (Buffer.Write (Buffer.fresh 3) "a\nb\nc".toList) 5
      = Buffer.Lines (Buffer.Write (Buffer.fresh 3) "a\nb\nc".toList)) ∧
    (Buffer.LastN (Buffer.Write (Buffer.fresh 3) "a\nb\nc".toList) 2)
      <:+ (Buffer.Lines (Buffer.Write (Buffer.fresh 3) "a\nb\nc".toList)) :=
  ⟨(claim_C6 _ ⟨by decide, by decide, by decide, by decide⟩ (-1)).1 (by decide),
   (claim_C6 _ ⟨by decide, by decide, by decide, by decide⟩ 5).2.1 (by decide),
   (claim_C6 _ ⟨by decide, by decide, by decide, by decide⟩ 2).2.2⟩

/-- C1 is refuted on the code: `Start` stores the raw `cmd.Wait()`
result in `waitErr` before translating a deliberate termination into
the cancellation signal, so after a `Stop`-terminated run `Start`
returns `context.Canceled` while `Wait()` returns the recorded
signal-exit error — not the same outcome. -/
theorem claim_C1_cex :
    (Runner.Start Fixtures.runner0 Fixtures.envStopped).2
      = some Runner.GoErr.canceled ∧
    Runner.Wait (Runner.Start Fixtures.runner0 Fixtures.envStopped).1
      = some (some (Runner.GoErr.waitE (Runner.WaitErr.exit (-1)))) ∧
    Runner.Wait (Runner.Start Fixtures.runner0 Fixtures.envStopped).1
      ≠ some ((Runner.Start Fixtures.runner0 Fixtures.envStopped).2) := by
  refine ⟨by decide, by decide, by decide⟩

/-- C1 (amended): after a completed `Start`, `Wait()` returns the
recorded raw process-wait outcome; this equals `Start`'s return for
every run that was not deliberately terminated (no error for a clean
exit, the exit-code error for a non-zero exit), while after a
deliberate termination `Start` returns the cancellation signal but
`Wait()` returns the raw recorded exit result. -/
theorem claim_C1 (r : Runner.Runner) (env : Runner.StartEnv)
    (hst : r.state = .initial) (hcn : env.ctxNil = false)
    (hsp : env.spawnErr = none) :
    Runner.Wait (Runner.Start r env).1
      = some (env.waitResult.map Runner.GoErr.waitE) ∧
    (r.stopped = false → env.stopDuring = false → env.ctxCanceled = false →
      (Runner.Start r env).2 = env.waitResult.map Runner.GoErr.waitE ∧
      Runner.Wait (Runner.Start r env).1 = some ((Runner.Start r env).2)) := by
  rw [Runner.Start_run hst hcn hsp]
  refine ⟨rfl, ?_⟩
  intro h1 h2 h3
  rw [h1, h2, h3]
  exact ⟨by simp, by simp [Runner.Wait]⟩

/-- Witness for C1 (amended) on an undisturbed clean run. -/
theorem claim_C1_witness :
    Runner.Wait (Runner.Start Fixtures.runner0 Fixtures.envOk).1
      = some (Fixtures.envOk.waitResult.map Runner.GoErr.waitE) ∧
    (Runner.Start Fixtures.runner0 Fixtures.envOk).2
      = Fixtures.envOk.waitResult.map Runner.GoErr.waitE ∧
    Runner.Wait (Runner.Start Fixtures.runner0 Fixtures.envOk).1
      = some ((Runner.Start Fixtures.runner0 Fixtures.envOk).2) := by
  have h := claim_C1 Fixtures.runner0 Fixtures.envOk rfl rfl rfl
  exact ⟨h.1, (h.2 rfl rfl rfl).1, (h.2 rfl rfl rfl).2⟩

/-- C5: the return value of a `Start` call that reaches `Running`
distinguishes three outcomes: the cancellation signal when the run was
deliberately terminated by `Stop` or context cancellation (never the
process failure), the exit-code error for a non-zero exit, and no
error for a clean exit. -/
theorem claim_C5 (r : Runner.Runner) (env : Runner.StartEnv)
    (hst : r.state = .initial) (hcn : env.ctxNil = false)
    (hsp : env.spawnErr = none) :
    ((r.stopped || env.stopDuring || env.ctxCanceled) = true →
      (Runner.Start r env).2 = some Runner.GoErr.canceled) ∧
    (∀ c : Int, env.waitResult = some (Runner.WaitErr.exit c) →
      (r.stopped || env.stopDuring || env.ctxCanceled) = false →
      (Runner.Start r env).2 = some (Runner.GoErr.waitE (Runner.WaitErr.exit c))) ∧
    (env.waitResult = none →
      (r.stopped || env.stopDuring || env.ctxCanceled) = false →
      (Runner.Start r env).2 = none) := by
  rw [Runner.Start_run hst hcn hsp]
  cases hs : r.stopped <;> cases hd : env.stopDuring <;> cases hcc : env.ctxCanceled <;>
    simp_all

/-- Witness for C5: a deliberate stop yields the cancellation signal, a
non-zero exit yields the exit-code error, a clean exit yields no
error. -/
theorem claim_C5_witness :
    (Runner.Start Fixtures.runner0 Fixtures.envStopped).2
      = some Runner.GoErr.canceled ∧
    (Runner.Start Fixtures.runner0
        { Fixtures.envOk with waitResult := some (.exit 1) }).2
      = some (Runner.GoErr.waitE (Runner.WaitErr.exit 1)) ∧
    (Runner.Start Fixtures.runner0 Fixtures.envOk).2 = none :=
  ⟨(claim_C5 Fixtures.runner0 Fixtures.envStopped rfl rfl rfl).1 (by decide),
   (claim_C5 Fixtures.runner0 { Fixtures.envOk with waitResult := some (.exit 1) }
      rfl rfl rfl).2.1 1 rfl (by decide),
   (claim_C5 Fixtures.runner0 Fixtures.envOk rfl rfl rfl).2.2 rfl (by decide)⟩

/-- C7: `Stop()` on a runner in state `Initial` or `Stopped` returns
success as a no-op: the runner is unchanged, no termination-signal
sequence is delivered, and the state stays what it was. -/
theorem claim_C7 (r : Runner.Runner)
    (h : r.state = Runner.State.initial ∨ r.state = Runner.State.stopped) :
    Runner.Stop r = (r, none) ∧
    (Runner.Stop r).1.state = r.state ∧
    (Runner.Stop r).1.sigCount = r.sigCount := by
  have he : Runner.Stop r = (r, none) := by
    unfold Runner.Stop
    rw [if_pos h]
  exact ⟨he, by rw [he], by rw [he]⟩

/-- Witness for C7: `Stop` before `Start` leaves `Initial`; `Stop` on a
stopped runner returns success unchanged. -/
theorem claim_C7_witness :
    (Runner.Stop Fixtures.runner0 = (Fixtures.runner0, none) ∧
      (Runner.Stop Fixtures.runner0).1.state = Fixtures.runner0.state ∧
      (Runner.Stop Fixtures.runner0).1.sigCount = Fixtures.runner0.sigCount) ∧
    (Runner.Stop Fixtures.runnerStopped = (Fixtures.runnerStopped, none) ∧
      (Runner.Stop Fixtures.runnerStopped).1.state = Fixtures.runnerStopped.state ∧
      (Runner.Stop Fixtures.runnerStopped).1.sigCount
        = Fixtures.runnerStopped.sigCount) :=
  ⟨claim_C7 Fixtures.runner0 (Or.inl rfl),
   claim_C7 Fixtures.runnerStopped (Or.inr rfl)⟩

/-- C8: over any execution of a runner built by `New`, the sequence of
states observable via `State()` is a (possibly partial) prefix of
`Initial, Running, Stopped` — one-way, each transition at most once —
and a runner that reached `Stopped` cannot be started again: a second
`Start` fails with the already-started error. -/
theorem claim_C8 :
    (∀ (cfg : Runner.Config) (r₀ : Runner.Runner), Runner.New cfg = .ok r₀ →
      ∀ ops : List Runner.Op,
        List.destutter (· ≠ ·) (Runner.traceFrom r₀ ops)
          <+: [Runner.State.initial, Runner.State.running, Runner.State.stopped]) ∧
    (∀ (r : Runner.Runner) (env : Runner.StartEnv),
      r.state = Runner.State.stopped → env.ctxNil = false →
      Runner.Start r env = (r, some Runner.GoErr.alreadyStarted)) := by
  constructor
  · intro cfg r₀ h ops
    exact Runner.trace_lifecycle_of_New h ops
  · intro r env hst hcn
    exact Runner.Start_not_initial
      (by rw [hst]; exact fun hh => Runner.State.noConfusion hh) hcn

/-- Witness for C8: a spawn, completion and stop on a fresh runner, and
a rejected restart of a stopped runner. -/
theorem claim_C8_witness :
    List.destutter (· ≠ ·) (Runner.traceFrom Fixtures.runner0
        [Runner.Op.opStart Fixtures.envOk, Runner.Op.opExit, Runner.Op.opStop])
      <+: [Runner.State.initial, Runner.State.running, Runner.State.stopped] ∧
    Runner.Start Fixtures.runnerStopped Fixtures.envOk
      = (Fixtures.runnerStopped, some Runner.GoErr.alreadyStarted) :=
  ⟨claim_C8.1 Fixtures.rcfg Fixtures.runner0 rfl _,
   claim_C8.2 Fixtures.runnerStopped Fixtures.envOk rfl rfl⟩

/-- C10: when the spawn attempt fails, `Start` returns the spawn error
while the state remains `Initial` (not `Stopped`): `State()` still
reports `Initial`, `Stop()` succeeds without delivering any signal, a
later `Start` is not rejected as already-started, and `Wait()` blocks
forever because the completion channel is never closed. -/
theorem claim_C10 (cfg : Runner.Config) (r₀ : Runner.Runner) (env : Runner.StartEnv)
    (e : Runner.SpawnErr) (hnew : Runner.New cfg = .ok r₀)
    (hcn : env.ctxNil = false) (hsp : env.spawnErr = some e) :
    (Runner.Start r₀ env).2 = some (Runner.GoErr.spawnE e) ∧
    (Runner.Start r₀ env).1.state = Runner.State.initial ∧
    Runner.Stop (Runner.Start r₀ env).1 = ((Runner.Start r₀ env).1, none) ∧
    (Runner.Start r₀ env).1.sigCount = 0 ∧
    Runner.Wait (Runner.Start r₀ env).1 = none ∧
    (∀ env₂ : Runner.StartEnv, env₂.ctxNil = false →
      (Runner.Start (Runner.Start r₀ env).1 env₂).2
        ≠ some Runner.GoErr.alreadyStarted) := by
  obtain ⟨hst, hpr, hstp, hwd, hsc, hcs, hps, hou⟩ := Runner.New_fields hnew
  rw [Runner.Start_spawn_fail hst hcn hsp]
  refine ⟨rfl, hst, ?_, hsc, ?_, ?_⟩
  · unfold Runner.Stop
    rw [if_pos (Or.inl hst)]
  · unfold Runner.Wait
    rw [if_neg (show ¬(({ r₀ with cmdSet := true } : Runner.Runner).waitDoneClosed = true)
      from by rw [show ({ r₀ with cmdSet := true } : Runner.Runner).waitDoneClosed
        = r₀.waitDoneClosed from rfl, hwd]; exact Bool.false_ne_true)]
  · intro env₂ hcn₂
    show (Runner.Start ({ r₀ with cmdSet := true } : Runner.Runner) env₂).2
        ≠ some Runner.GoErr.alreadyStarted
    have hst₁ : ({ r₀ with cmdSet := true } : Runner.Runner).state
        = Runner.State.initial := hst
    cases hsp₂ : env₂.spawnErr with
    | some e₂ =>
      rw [Runner.Start_spawn_fail hst₁ hcn₂ hsp₂]
      simp
    | none =>
      rw [Runner.Start_run hst₁ hcn₂ hsp₂]
      by_cases hcond : ((({ r₀ with cmdSet := true } : Runner.Runner).stopped
          || env₂.stopDuring) || env₂.ctxCanceled) = true
      · rw [if_pos hcond]
        simp
      · rw [if_neg hcond]
        cases env₂.waitResult <;> simp

/-- Witness for C10: spawning a missing executable on a fresh runner. -/
theorem claim_C10_witness :
    (Runner.Start Fixtures.runner0 Fixtures.envNotFound).2
      = some (Runner.GoErr.spawnE Runner.SpawnErr.notFound) ∧
    (Runner.Start Fixtures.runner0 Fixtures.envNotFound).1.state
      = Runner.State.initial ∧
    Runner.Stop (Runner.Start Fixtures.runner0 Fixtures.envNotFound).1
      = ((Runner.Start Fixtures.runner0 Fixtures.envNotFound).1, none) ∧
    (Runner.Start Fixtures.runner0 Fixtures.envNotFound).1.sigCount = 0 ∧
    Runner.Wait (Runner.Start Fixtures.runner0 Fixtures.envNotFound).1 = none ∧
    (Runner.Start (Runner.Start Fixtures.runner0 Fixtures.envNotFound).1
        Fixtures.envOk).2 ≠ some Runner.GoErr.alreadyStarted := by
  have h := claim_C10 Fixtures.rcfg Fixtures.runner0 Fixtures.envNotFound
    Runner.SpawnErr.notFound rfl rfl rfl
  exact ⟨h.1, h.2.1, h.2.2.1, h.2.2.2.1, h.2.2.2.2.1,
    h.2.2.2.2.2 Fixtures.envOk rfl⟩

/-- C4 is refuted as stated: `Manager.Start` consults the store before
the running-instance check, so a Manager whose store no longer resolves
`id` returns the not-found error — not `(false, nil)` — although an
instance for `id` is recorded `Running`. -/
theorem claim_C4_cex :
    (Fixtures.mgr0.instances 0).map Manager.Instance.status
      = some Manager.Status.running ∧
    Manager.Start Fixtures.mgr0 0
      = (Fixtures.mgr0, false, some Manager.MErr.commandNotFound) ∧
    ¬((Manager.Start Fixtures.mgr0 0).2 = (false, none)) := by
  refine ⟨rfl, rfl, by decide⟩

/-- C4 (amended): for every Manager whose store still resolves `id`, if
an instance for `id` exists and is recorded `Running`, `Start` returns
`(false, nil)` without creating anything and without modifying the
registry. -/
theorem claim_C4 (m : Manager.Manager) (id : Nat) (cmd : Manager.Cmd)
    (inst : Manager.Instance) (hs : m.storeGet id = .ok cmd)
    (hi : m.instances id = some inst) (hr : inst.status = Manager.Status.running) :
    Manager.Start m id = (m, false, none) := by
  simp [Manager.Start, hs, hi, hr]

/-- Witness for C4 (amended): a healthy manager with a running instance
whose store still resolves the identifier. -/
theorem claim_C4_witness :
    Manager.Start Fixtures.mgr1 0 = (Fixtures.mgr1, false, none) :=
  claim_C4 Fixtures.mgr1 0 Fixtures.cmd0 Fixtures.inst0 rfl rfl rfl

/-- C9: `Stop`, `Output` and `OutputLastN` return the not-running
signal for an unrecorded identifier; for a recorded instance `Output`
and `OutputLastN` return the RingBuffer snapshot without error
regardless of status, and the captured history is retained — not
purged — by the termination status flip and by `Stop`. -/
theorem claim_C9 (m : Manager.Manager) (id : Nat) (n : Int) :
    (m.instances id = none →
      Manager.Stop m id = (m, some Manager.MErr.notRunning) ∧
      Manager.Output m id = .error .notRunning ∧
      Manager.OutputLastN m id n = .error .notRunning) ∧
    (∀ inst : Manager.Instance, m.instances id = some inst →
      Manager.Output m id = .ok (Buffer.Lines inst.buffer) ∧
      Manager.OutputLastN m id n = .ok (Buffer.LastN inst.buffer n)) ∧
    Manager.Output (Manager.onRunnerDone m id) id = Manager.Output m id ∧
    Manager.OutputLastN (Manager.onRunnerDone m id) id n
      = Manager.OutputLastN m id n ∧
    Manager.Output (Manager.Stop m id).1 id = Manager.Output m id := by
  refine ⟨?_, ?_, ?_, ?_, ?_⟩
  · intro h
    exact ⟨by simp [Manager.Stop, h], by simp [Manager.Output, h],
      by simp [Manager.OutputLastN, h]⟩
  · intro inst h
    exact ⟨by simp [Manager.Output, h], by simp [Manager.OutputLastN, h]⟩
  · cases h : m.instances id with
    | none => simp [Manager.Output, Manager.onRunnerDone, h]
    | some inst => simp [Manager.Output, Manager.onRunnerDone, h]
  · cases h : m.instances id with
    | none => simp [Manager.OutputLastN, Manager.onRunnerDone, h]
    | some inst => simp [Manager.OutputLastN, Manager.onRunnerDone, h]
  · cases h : m.instances id with
    | none => simp [Manager.Stop, Manager.Output, h]
    | some inst =>
      by_cases hs : inst.status = Manager.Status.stopped
      · simp [Manager.Stop, Manager.Output, h, hs]
      · simp [Manager.Stop, Manager.Output, Manager.update, h, hs]

/-- Witness for C9 at a manager with one running instance for `0` and
nothing recorded for `7`. -/
theorem claim_C9_witness :
    (Manager.Stop Fixtures.mgr1 7 = (Fixtures.mgr1, some Manager.MErr.notRunning) ∧
      Manager.Output Fixtures.mgr1 7 = .error .notRunning ∧
      Manager.OutputLastN Fixtures.mgr1 7 2 = .error .notRunning) ∧
    (Manager.Output Fixtures.mgr1 0 = .ok (Buffer.Lines Fixtures.inst0.buffer) ∧
      Manager.OutputLastN Fixtures.mgr1 0 2
        = .ok (Buffer.LastN Fixtures.inst0.buffer 2)) ∧
    Manager.Output (Manager.Stop Fixtures.mgr1 0).1 0
      = Manager.Output Fixtures.mgr1 0 :=
  ⟨(claim_C9 Fixtures.mgr1 7 2).1 rfl,
   (claim_C9 Fixtures.mgr1 0 2).2.1 Fixtures.inst0 rfl,
   (claim_C9 Fixtures.mgr1 0 2).2.2.2.2⟩
